import Mathlib

/-!
Verification development for the horse-pedigree front end
(`src/src/App.jsx`).  The definitions below are a shallow embedding of
the relevant JavaScript functions: horse records as structures, the
recursive D3 ancestry-tree builder `buildD3AncestryData`, the form
submission path (`HorseForm.handleSubmit`, `capitalizeEachWord`), the
`addHorse` mutation pipeline, and the share-URL / startup query-string
round trip.  Machine strings are Lean `String`s, JavaScript `null` /
`undefined` is `Option.none`, and JS truthiness of string-or-null
values ("" and null are falsy) is modelled explicitly.
-/

/-- A horse record as fetched from the `cavalos` table
(`select id, created_at, nome, raca, url_imagem, pai_id, mae_id, idade, sexo`).
Field names follow the database column names used in the source.
`id` is an opaque string; `pai_id`, `mae_id` and `url_imagem` are nullable. -/
structure Horse where
  id : String
  nome : String
  raca : String
  idade : Int
  sexo : String
  url_imagem : Option String
  pai_id : Option String
  mae_id : Option String
deriving Repr, DecidableEq

/-- The node objects produced by `buildD3AncestryData`
(fields `id, name, breed, age, sex, photoUrl, children`). -/
inductive TreeNode : Type where
  | node (id name breed : String) (age : Int) (sex : String)
      (photoUrl : Option String) (children : List TreeNode) : TreeNode
deriving Repr

/-- Accessor for the `children` field of a tree node. -/
def TreeNode.children : TreeNode → List TreeNode
  | .node _ _ _ _ _ _ cs => cs

/-- Accessor for the `id` field of a tree node. -/
def TreeNode.nodeId : TreeNode → String
  | .node i _ _ _ _ _ _ => i

/-- JS truthiness of a string-or-null value: `null`/`undefined` and the
empty string are falsy, every other string is truthy. -/
def jsTruthyStr : Option String → Bool
  | none => false
  | some s => !(s == "")

/-- Parent resolution as written in `buildD3AncestryData`
(`horse.pai_id ? allHorses.find(h => h.id === horse.pai_id) : null`):
if the stored parent id is truthy, a linear `find` over `allHorses`
comparing `id` for equality; otherwise `null`. -/
def lookupParent (allHorses : List Horse) (pid? : Option String) : Option Horse :=
  match pid? with
  | some pid => if pid == "" then none else allHorses.find? (fun x => x.id == pid)
  | none => none

/-- Shallow embedding of `buildD3AncestryData(horse, allHorses, maxDepth,
currentDepth = 0)` from `App.jsx`.  Returns `null` when the horse is
absent or `currentDepth >= maxDepth`; otherwise builds the node and,
when `currentDepth < maxDepth - 1`, pushes the recursively built father
then mother subtree (each only if the parent resolves) and filters out
`null` children, exactly as the source does. -/
def buildD3AncestryData (horse : Option Horse) (allHorses : List Horse)
    (maxDepth : Nat) (currentDepth : Nat) : Option TreeNode :=
  match horse with
  | none => none
  | some h =>
    if currentDepth ≥ maxDepth then none
    else
      let children : List TreeNode :=
        if _hlt : currentDepth < maxDepth - 1 then
          (((match lookupParent allHorses h.pai_id with
             | some father =>
                 [buildD3AncestryData (some father) allHorses maxDepth (currentDepth + 1)]
             | none => []) ++
            (match lookupParent allHorses h.mae_id with
             | some mother =>
                 [buildD3AncestryData (some mother) allHorses maxDepth (currentDepth + 1)]
             | none => [])).filterMap id)
        else []
      some (.node h.id h.nome h.raca h.idade h.sexo h.url_imagem children)
termination_by maxDepth - currentDepth
decreasing_by
  · omega
  · omega

/-- Fuel-indexed form of the same recursion: `buildFuel all fuel h`
equals `buildD3AncestryData (some h) all maxDepth currentDepth` whenever
`fuel = maxDepth - currentDepth` (proved below).  It is structurally
recursive, so concrete trees evaluate by `rfl`. -/
def buildFuel (allHorses : List Horse) : Nat → Horse → Option TreeNode
  | 0, _ => none
  | fuel + 1, h =>
    let children : List TreeNode :=
      if fuel = 0 then []
      else
        (((match lookupParent allHorses h.pai_id with
           | some father => [buildFuel allHorses fuel father]
           | none => []) ++
          (match lookupParent allHorses h.mae_id with
           | some mother => [buildFuel allHorses fuel mother]
           | none => [])).filterMap id)
    some (.node h.id h.nome h.raca h.idade h.sexo h.url_imagem children)

theorem buildD3_none (allHorses : List Horse) (maxDepth currentDepth : Nat) :
    buildD3AncestryData none allHorses maxDepth currentDepth = none := by
  unfold buildD3AncestryData
  rfl

theorem buildD3_eq_buildFuel (allHorses : List Horse) (h : Horse)
    (maxDepth currentDepth : Nat) :
    buildD3AncestryData (some h) allHorses maxDepth currentDepth =
      buildFuel allHorses (maxDepth - currentDepth) h := by
  generalize hfuel : maxDepth - currentDepth = fuel
  induction fuel generalizing h currentDepth with
  | zero =>
    unfold buildD3AncestryData buildFuel
    simp only
    rw [if_pos (by omega)]
  | succ n ih =>
    unfold buildD3AncestryData buildFuel
    simp only
    rw [if_neg (by omega)]
    by_cases hlt : currentDepth < maxDepth - 1
    · rw [dif_pos hlt, if_neg (by omega)]
      have harg : maxDepth - (currentDepth + 1) = n := by omega
      cases hf : lookupParent allHorses h.pai_id <;>
        cases hm : lookupParent allHorses h.mae_id <;>
        simp only [ih _ _ harg]
    · rw [dif_neg hlt, if_pos (by omega)]

mutual

/-- Height of a materialized tree, counted in nodes: a childless node
has height 1, so root-to-leaf path length equals the number of
generations materialized. -/
def TreeNode.height : TreeNode → Nat
  | .node _ _ _ _ _ _ cs => 1 + maxHeight cs

/-- Maximum height over a list of trees (0 for the empty list). -/
def maxHeight : List TreeNode → Nat
  | [] => 0
  | c :: cs => max (TreeNode.height c) (maxHeight cs)

end

mutual

/-- `noChildAt t k = true` iff every node of `t` at 0-indexed depth `k`
has an empty children list (vacuously true when no node sits at that
depth). -/
def noChildAt : TreeNode → Nat → Bool
  | .node _ _ _ _ _ _ cs, 0 => cs.isEmpty
  | .node _ _ _ _ _ _ cs, k + 1 => noChildAtList cs k

/-- Pointwise `noChildAt` over a list of subtrees. -/
def noChildAtList : List TreeNode → Nat → Bool
  | [], _ => true
  | c :: cs, k => noChildAt c k && noChildAtList cs k

end

/-- Length, in nodes, of the longest ancestor chain reachable from a
horse by repeatedly resolving `pai_id` / `mae_id` against the
collection, truncated at `fuel` generations.  This formalizes the
spec's "longest available ancestor chain": for an acyclic collection
the value is stable once `fuel` exceeds the true chain length, and the
truncation lemma below shows `min d (availChain all F h)` does not
depend on `F` for `F ≥ d`. -/
def availChain (allHorses : List Horse) : Nat → Horse → Nat
  | 0, _ => 0
  | fuel + 1, h =>
    let fa : Nat :=
      match lookupParent allHorses h.pai_id with
      | some father => availChain allHorses fuel father
      | none => 0
    let ma : Nat :=
      match lookupParent allHorses h.mae_id with
      | some mother => availChain allHorses fuel mother
      | none => 0
    1 + max fa ma

theorem availChain_truncation (allHorses : List Horse) :
    ∀ (f F : Nat) (h : Horse), f ≤ F →
      availChain allHorses f h = min f (availChain allHorses F h) := by
  intro f
  induction f with
  | zero => intro F h _; simp [availChain]
  | succ n ih =>
    intro F h hle
    obtain ⟨M, rfl⟩ : ∃ M, F = M + 1 := ⟨F - 1, by omega⟩
    unfold availChain
    simp only
    cases hf : lookupParent allHorses h.pai_id <;>
      cases hm : lookupParent allHorses h.mae_id <;>
      simp only [ih M _ (by omega)] <;> omega

theorem availChain_le_fuel (allHorses : List Horse) (fuel : Nat) (h : Horse) :
    availChain allHorses fuel h ≤ fuel := by
  have := availChain_truncation allHorses fuel fuel h le_rfl
  omega

theorem buildFuel_height (allHorses : List Horse) :
    ∀ (fuel : Nat) (h : Horse), 1 ≤ fuel →
      ∃ t, buildFuel allHorses fuel h = some t ∧
        TreeNode.height t = availChain allHorses fuel h := by
  intro fuel
  induction fuel with
  | zero => intro h h1; omega
  | succ n ih =>
    intro h _
    unfold buildFuel availChain
    simp only
    by_cases hn : n = 0
    · subst hn
      rw [if_pos rfl]
      refine ⟨_, rfl, ?_⟩
      cases lookupParent allHorses h.pai_id <;>
        cases lookupParent allHorses h.mae_id <;>
        simp [TreeNode.height, maxHeight, availChain]
    · rw [if_neg hn]
      cases hf : lookupParent allHorses h.pai_id with
      | none =>
        cases hm : lookupParent allHorses h.mae_id with
        | none =>
          refine ⟨_, rfl, ?_⟩
          simp [TreeNode.height, maxHeight]
        | some mother =>
          obtain ⟨tm, hbm, hhm⟩ := ih mother (by omega)
          refine ⟨_, rfl, ?_⟩
          simp [TreeNode.height, maxHeight, List.filterMap, hbm, hhm]
      | some father =>
        obtain ⟨tf, hbf, hhf⟩ := ih father (by omega)
        cases hm : lookupParent allHorses h.mae_id with
        | none =>
          refine ⟨_, rfl, ?_⟩
          simp [TreeNode.height, maxHeight, List.filterMap, hbf, hhf]
        | some mother =>
          obtain ⟨tm, hbm, hhm⟩ := ih mother (by omega)
          refine ⟨_, rfl, ?_⟩
          simp [TreeNode.height, maxHeight, List.filterMap, hbf, hbm, hhf, hhm]

theorem buildFuel_isSome (allHorses : List Horse) (fuel : Nat) (h : Horse)
    (h1 : 1 ≤ fuel) : ∃ t, buildFuel allHorses fuel h = some t := by
  obtain ⟨t, ht, -⟩ := buildFuel_height allHorses fuel h h1
  exact ⟨t, ht⟩

theorem buildFuel_noChildAt (allHorses : List Horse) :
    ∀ (fuel : Nat) (h : Horse) (t : TreeNode),
      buildFuel allHorses fuel h = some t → noChildAt t (fuel - 1) = true := by
  intro fuel
  induction fuel with
  | zero => intro h t ht; simp [buildFuel] at ht
  | succ n ih =>
    intro h t ht
    unfold buildFuel at ht
    simp only at ht
    by_cases hn : n = 0
    · subst hn
      rw [if_pos rfl] at ht
      cases ht
      simp [noChildAt, List.isEmpty]
    · rw [if_neg hn] at ht
      obtain ⟨m, rfl⟩ : ∃ m, n = m + 1 := ⟨n - 1, by omega⟩
      cases ht
      show noChildAtList _ (m + 1 + 1 - 1 - 1) = true
      cases hf : lookupParent allHorses h.pai_id with
      | none =>
        cases hm : lookupParent allHorses h.mae_id with
        | none => simp [noChildAtList]
        | some mother =>
          obtain ⟨tm, hbm⟩ := buildFuel_isSome allHorses (m + 1) mother (by omega)
          have h2 := ih mother tm hbm
          simp only [List.nil_append]
          rw [hbm]
          simp only [List.filterMap, id, noChildAtList, Bool.and_true]
          simpa using h2
      | some father =>
        obtain ⟨tf, hbf⟩ := buildFuel_isSome allHorses (m + 1) father (by omega)
        have h1 := ih father tf hbf
        cases hm : lookupParent allHorses h.mae_id with
        | none =>
          simp only [List.append_nil]
          rw [hbf]
          simp only [List.filterMap, id, noChildAtList, Bool.and_true]
          simpa using h1
        | some mother =>
          obtain ⟨tm, hbm⟩ := buildFuel_isSome allHorses (m + 1) mother (by omega)
          have h2 := ih mother tm hbm
          simp only [List.cons_append, List.nil_append]
          rw [hbf, hbm]
          simp only [List.filterMap, id, noChildAtList, Bool.and_true, Bool.and_eq_true]
          constructor
          · simpa using h1
          · simpa using h2

/-- Sample collection from the spec scenario: horse "1" (Male) and
horse "2" (Female) are the registered parents of horse "3". -/
def horseA : Horse := ⟨"1", "A", "r", 1, "Macho", none, none, none⟩

/-- Sample mother horse of the spec scenario. -/
def horseB : Horse := ⟨"2", "B", "r", 2, "Fêmea", none, none, none⟩

/-- Sample child horse of the spec scenario, referencing both parents. -/
def horseC : Horse := ⟨"3", "C", "r", 0, "Macho", none, some "1", some "2"⟩

/-- The sample collection holding the three horses above. -/
def sampleColl : List Horse := [horseA, horseB, horseC]

/-- A self-referential horse: both parent ids point back to itself, the
tightest possible cyclic parent graph. -/
def horseLoop : Horse := ⟨"a", "A", "r", 1, "Macho", none, some "a", some "a"⟩

/-- Collection containing only the self-referential horse. -/
def cycColl : List Horse := [horseLoop]

/-- Leaf node materialized for the self-referential horse. -/
def loopLeaf : TreeNode := .node "a" "A" "r" 1 "Macho" none []

/-- Depth-2 tree materialized for the self-referential horse. -/
def loopTree : TreeNode := .node "a" "A" "r" 1 "Macho" none [loopLeaf, loopLeaf]

/-- C1: for every horse collection and every depth `d ≥ 1`,
`buildD3AncestryData` applied to a present root returns a tree whose
maximum root-to-leaf path length (height in nodes) is exactly
`min d (longest available ancestor chain)` — with the chain measured by
`availChain` at any fuel `F ≥ d` — and no node at 0-indexed depth
`d - 1` has children. -/
theorem claim1_depth_exact (allHorses : List Horse) (h : Horse) (d : Nat)
    (hd : 1 ≤ d) :
    ∃ t, buildD3AncestryData (some h) allHorses d 0 = some t ∧
      (∀ F : Nat, d ≤ F →
        TreeNode.height t = min d (availChain allHorses F h)) ∧
      noChildAt t (d - 1) = true := by
  obtain ⟨t, ht, hh⟩ := buildFuel_height allHorses d h hd
  refine ⟨t, ?_, ?_, ?_⟩
  · rw [buildD3_eq_buildFuel]
    simpa using ht
  · intro F hF
    rw [hh, availChain_truncation allHorses d F h hF]
  · exact buildFuel_noChildAt allHorses d h t ht

/-- Witness for C1 at the spec's concrete scenario (root horse "3",
collection of three horses, depth 3). -/
theorem claim1_depth_exact_witness :
    1 ≤ 3 ∧
    (∃ t, buildD3AncestryData (some horseC) sampleColl 3 0 = some t ∧
      (∀ F : Nat, 3 ≤ F →
        TreeNode.height t = min 3 (availChain sampleColl F horseC)) ∧
      noChildAt t (3 - 1) = true) :=
  ⟨by norm_num, claim1_depth_exact sampleColl horseC 3 (by norm_num)⟩

/-- C2: for every collection (cyclic parent graphs included) and every
depth, whenever `buildD3AncestryData` returns a tree, that tree is
finite with height bounded by `maxDepth`; the function itself is total
in this embedding, its termination argument being exactly the source's
depth counter, which grows on every recursive call. -/
theorem claim2_cycle_bounded (allHorses : List Horse) (h : Horse)
    (d : Nat) (t : TreeNode)
    (ht : buildD3AncestryData (some h) allHorses d 0 = some t) :
    TreeNode.height t ≤ d := by
  rw [buildD3_eq_buildFuel] at ht
  rcases d with _ | n
  · simp [buildFuel] at ht
  · obtain ⟨t', ht', hh'⟩ := buildFuel_height allHorses (n + 1) h (by omega)
    simp only [Nat.sub_zero] at ht
    rw [ht'] at ht
    cases ht
    rw [hh']
    exact availChain_le_fuel allHorses (n + 1) h

/-- Witness for C2 on the self-referential (cyclic) horse at depth 2:
the materialized tree is concrete and its height is within the bound. -/
theorem claim2_cycle_bounded_witness :
    buildD3AncestryData (some horseLoop) cycColl 2 0 = some loopTree ∧
      TreeNode.height loopTree ≤ 2 := by
  have hEq : buildD3AncestryData (some horseLoop) cycColl 2 0 = some loopTree := by
    rw [buildD3_eq_buildFuel]
    rfl
  exact ⟨hEq, claim2_cycle_bounded cycColl horseLoop 2 loopTree hEq⟩

theorem buildFuel_shape (allHorses : List Horse) (fuel : Nat) (h : Horse)
    (h1 : 1 ≤ fuel) :
    ∃ cs, buildFuel allHorses fuel h =
        some (.node h.id h.nome h.raca h.idade h.sexo h.url_imagem cs) ∧
      cs.length ≤ 2 := by
  obtain ⟨n, rfl⟩ : ∃ n, fuel = n + 1 := ⟨fuel - 1, by omega⟩
  unfold buildFuel
  simp only
  by_cases hn : n = 0
  · subst hn
    rw [if_pos rfl]
    exact ⟨[], rfl, by norm_num⟩
  · rw [if_neg hn]
    refine ⟨_, rfl, ?_⟩
    have hlen : ∀ o : Option Horse,
        ((match o with
          | some p => [buildFuel allHorses n p]
          | none => ([] : List (Option TreeNode)))).length ≤ 1 := by
      intro o; cases o <;> simp
    calc (List.filterMap id
            ((match lookupParent allHorses h.pai_id with
              | some father => [buildFuel allHorses n father]
              | none => []) ++
             (match lookupParent allHorses h.mae_id with
              | some mother => [buildFuel allHorses n mother]
              | none => []))).length
        ≤ ((match lookupParent allHorses h.pai_id with
              | some father => [buildFuel allHorses n father]
              | none => []) ++
             (match lookupParent allHorses h.mae_id with
              | some mother => [buildFuel allHorses n mother]
              | none => [])).length := List.length_filterMap_le _ _
      _ ≤ 2 := by
          rw [List.length_append]
          have := hlen (lookupParent allHorses h.pai_id)
          have := hlen (lookupParent allHorses h.mae_id)
          omega

theorem buildFuel_no_parents (allHorses : List Horse) (fuel : Nat) (h : Horse)
    (h1 : 1 ≤ fuel) (hf : h.pai_id = none) (hm : h.mae_id = none) :
    buildFuel allHorses fuel h =
      some (.node h.id h.nome h.raca h.idade h.sexo h.url_imagem []) := by
  obtain ⟨n, rfl⟩ : ∃ n, fuel = n + 1 := ⟨fuel - 1, by omega⟩
  unfold buildFuel
  simp only [hf, hm, lookupParent]
  by_cases hn : n = 0
  · rw [if_pos hn]
  · rw [if_neg hn]
    simp [List.filterMap]

/-- C3: `buildD3AncestryData` returns `null` when the root horse is
absent or `maxDepth` is 0; otherwise it returns a node carrying the
root's `id, name, breed, age, sex, photoUrl` and a children list of at
most two entries; and a root with no registered parents yields, for any
`maxDepth ≥ 1`, a single node with an empty children list. -/
theorem claim3_null_and_fields (allHorses : List Horse) (d : Nat) :
    buildD3AncestryData none allHorses d 0 = none ∧
    ∀ h : Horse,
      buildD3AncestryData (some h) allHorses 0 0 = none ∧
      (1 ≤ d → ∃ cs, buildD3AncestryData (some h) allHorses d 0 =
          some (.node h.id h.nome h.raca h.idade h.sexo h.url_imagem cs) ∧
        cs.length ≤ 2) ∧
      (h.pai_id = none → h.mae_id = none → 1 ≤ d →
        buildD3AncestryData (some h) allHorses d 0 =
          some (.node h.id h.nome h.raca h.idade h.sexo h.url_imagem [])) := by
  refine ⟨buildD3_none allHorses d 0, fun h => ⟨?_, ?_, ?_⟩⟩
  · rw [buildD3_eq_buildFuel]
    rfl
  · intro hd
    rw [buildD3_eq_buildFuel]
    simpa using buildFuel_shape allHorses d h hd
  · intro hf hm hd
    rw [buildD3_eq_buildFuel]
    simpa using buildFuel_no_parents allHorses d h hd hf hm

/-- Witness for C3 at depth 1 with the parentless sample horse "1". -/
theorem claim3_null_and_fields_witness :
    buildD3AncestryData none sampleColl 1 0 = none ∧
    buildD3AncestryData (some horseA) sampleColl 0 0 = none ∧
    (∃ cs, buildD3AncestryData (some horseA) sampleColl 1 0 =
        some (.node horseA.id horseA.nome horseA.raca horseA.idade
          horseA.sexo horseA.url_imagem cs) ∧ cs.length ≤ 2) ∧
    buildD3AncestryData (some horseA) sampleColl 1 0 =
      some (.node horseA.id horseA.nome horseA.raca horseA.idade
        horseA.sexo horseA.url_imagem []) := by
  have H := claim3_null_and_fields sampleColl 1
  exact ⟨H.1, (H.2 horseA).1, (H.2 horseA).2.1 (by norm_num),
    (H.2 horseA).2.2 rfl rfl (by norm_num)⟩

/-- C4: at a non-terminal level (`maxDepth ≥ 2` at the root),
`buildD3AncestryData` resolves `fatherId` then `motherId` through
`lookupParent` (a linear `find` on id equality over `allHorses`), and
the children list is exactly the father subtree (when the father id
resolves) followed by the mother subtree (when the mother id resolves):
both resolving gives `[father-subtree, mother-subtree]` in that order,
and an absent or dangling parent id contributes no entry at all — no
placeholder node and no error. -/
theorem claim4_children_order (allHorses : List Horse) (h : Horse) (d : Nat)
    (hd : 2 ≤ d) :
    ∃ t, buildD3AncestryData (some h) allHorses d 0 = some t ∧
      TreeNode.children t =
        ((lookupParent allHorses h.pai_id).bind
            (fun f => buildD3AncestryData (some f) allHorses d 1)).toList ++
        ((lookupParent allHorses h.mae_id).bind
            (fun m => buildD3AncestryData (some m) allHorses d 1)).toList ∧
      (∀ f m, lookupParent allHorses h.pai_id = some f →
        lookupParent allHorses h.mae_id = some m →
        ∃ tf tm, buildD3AncestryData (some f) allHorses d 1 = some tf ∧
          buildD3AncestryData (some m) allHorses d 1 = some tm ∧
          TreeNode.children t = [tf, tm]) ∧
      (lookupParent allHorses h.pai_id = none →
        TreeNode.children t =
          ((lookupParent allHorses h.mae_id).bind
            (fun m => buildD3AncestryData (some m) allHorses d 1)).toList) := by
  obtain ⟨k, rfl⟩ : ∃ k, d = k + 2 := ⟨d - 2, by omega⟩
  have hsub1 : k + 2 - 1 = k + 1 := by omega
  have hrec : ∀ p : Horse,
      buildD3AncestryData (some p) allHorses (k + 2) 1 =
        buildFuel allHorses (k + 1) p := by
    intro p
    rw [buildD3_eq_buildFuel, hsub1]
  rw [buildD3_eq_buildFuel]
  simp only [Nat.sub_zero]
  show ∃ t, buildFuel allHorses (k + 2) h = some t ∧ _
  unfold buildFuel
  simp only [if_neg (Nat.succ_ne_zero k)]
  cases hf : lookupParent allHorses h.pai_id with
  | none =>
    cases hm : lookupParent allHorses h.mae_id with
    | none =>
      refine ⟨_, rfl, ?_, ?_, ?_⟩
      · simp [TreeNode.children, List.filterMap]
      · intro f m hfs _; exact absurd hfs (by simp)
      · intro _; simp [TreeNode.children, List.filterMap]
    | some mother =>
      obtain ⟨tm, hbm⟩ := buildFuel_isSome allHorses (k + 1) mother (by omega)
      refine ⟨_, rfl, ?_, ?_, ?_⟩
      · simp only [TreeNode.children, List.nil_append]
        rw [hbm]
        simp [List.filterMap, Option.bind, Option.toList, hrec, hbm]
      · intro f m hfs _; exact absurd hfs (by simp)
      · intro _
        simp only [TreeNode.children, List.nil_append]
        rw [hbm]
        simp [List.filterMap, Option.bind, Option.toList, hrec, hbm]
  | some father =>
    obtain ⟨tf, hbf⟩ := buildFuel_isSome allHorses (k + 1) father (by omega)
    cases hm : lookupParent allHorses h.mae_id with
    | none =>
      refine ⟨_, rfl, ?_, ?_, ?_⟩
      · simp only [TreeNode.children, List.append_nil]
        rw [hbf]
        simp [List.filterMap, Option.bind, Option.toList, hrec, hbf]
      · intro f m _ hms; exact absurd hms (by simp)
      · intro hfn; exact absurd hfn (by simp)
    | some mother =>
      obtain ⟨tm, hbm⟩ := buildFuel_isSome allHorses (k + 1) mother (by omega)
      refine ⟨_, rfl, ?_, ?_, ?_⟩
      · simp only [TreeNode.children, List.cons_append, List.nil_append]
        rw [hbf, hbm]
        simp [List.filterMap, Option.bind, Option.toList, hrec, hbf, hbm]
      · intro f m hfs hms
        rw [Option.some.injEq] at hfs hms
        subst hfs; subst hms
        refine ⟨tf, tm, by rw [hrec, hbf], by rw [hrec, hbm], ?_⟩
        simp only [TreeNode.children, List.cons_append, List.nil_append]
        rw [hbf, hbm]
        simp [List.filterMap]
      · intro hfn; exact absurd hfn (by simp)

/-- Witness for C4 on the spec scenario (root horse "3", both parents
resolve, depth 3). -/
theorem claim4_children_order_witness :
    2 ≤ 3 ∧
    (∃ t, buildD3AncestryData (some horseC) sampleColl 3 0 = some t ∧
      TreeNode.children t =
        ((lookupParent sampleColl horseC.pai_id).bind
            (fun f => buildD3AncestryData (some f) sampleColl 3 1)).toList ++
        ((lookupParent sampleColl horseC.mae_id).bind
            (fun m => buildD3AncestryData (some m) sampleColl 3 1)).toList ∧
      (∀ f m, lookupParent sampleColl horseC.pai_id = some f →
        lookupParent sampleColl horseC.mae_id = some m →
        ∃ tf tm, buildD3AncestryData (some f) sampleColl 3 1 = some tf ∧
          buildD3AncestryData (some m) sampleColl 3 1 = some tm ∧
          TreeNode.children t = [tf, tm]) ∧
      (lookupParent sampleColl horseC.pai_id = none →
        TreeNode.children t =
          ((lookupParent sampleColl horseC.mae_id).bind
            (fun m => buildD3AncestryData (some m) sampleColl 3 1)).toList)) :=
  ⟨by norm_num, claim4_children_order sampleColl horseC 3 (by norm_num)⟩

/-- JS string `toLowerCase` at one character, over Basic Latin and the
Latin-1 Supplement (the repertoire the app's Portuguese data and the
claims exercise): `A`-`Z` (65-90) and `À`-`Þ` (192-222, except `×`,
215) map down by 32, and `Ÿ` (376, the image of `ÿ` under uppercasing)
maps to `ÿ` (255); every other character is unchanged.  Case pairs
outside this repertoire are external to the embedding. -/
def jsLowerChar (c : Char) : List Char :=
  let n := c.toNat
  if 65 ≤ n ∧ n ≤ 90 then [Char.ofNat (n + 32)]
  else if 192 ≤ n ∧ n ≤ 222 ∧ n ≠ 215 then [Char.ofNat (n + 32)]
  else if n = 376 then [Char.ofNat 255]
  else [c]

/-- JS string `toUpperCase` at one character, over the same repertoire:
`a`-`z` (97-122) and `à`-`þ` (224-254, except `÷`, 247) map up by 32,
`ß` (223) expands to the two-character string `SS`, and `ÿ` (255) maps
to `Ÿ` (376); every other character is unchanged. -/
def jsUpperChar (c : Char) : List Char :=
  let n := c.toNat
  if 97 ≤ n ∧ n ≤ 122 then [Char.ofNat (n - 32)]
  else if n = 223 then [Char.ofNat 83, Char.ofNat 83]
  else if 224 ≤ n ∧ n ≤ 254 ∧ n ≠ 247 then [Char.ofNat (n - 32)]
  else if n = 255 then [Char.ofNat 376]
  else [c]

/-- The regex letter class `\p{L}` over the modelled repertoire: the
ASCII letters, `ª` (170) and `º` (186), the Latin-1 letters 192-255
except `×` (215) and `÷` (247), and `Ÿ` (376). -/
def jsIsLetter (c : Char) : Bool :=
  let n := c.toNat
  if (65 ≤ n ∧ n ≤ 90) ∨ (97 ≤ n ∧ n ≤ 122) ∨ n = 170 ∨ n = 186 ∨
      (192 ≤ n ∧ n ≤ 214) ∨ (216 ≤ n ∧ n ≤ 246) ∨ (248 ≤ n ∧ n ≤ 255) ∨
      n = 376
  then true else false

/-- The regex whitespace class `\s`: space, the controls 9-13
(tab, LF, VT, FF, CR), NBSP (160) and the Unicode space characters
(Ogham space, the en-family spaces 0x2000-0x200A, line and paragraph
separators, narrow NBSP, medium mathematical space, ideographic space,
BOM). -/
def jsWhitespace (c : Char) : Bool :=
  let n := c.toNat
  if n = 32 ∨ (9 ≤ n ∧ n ≤ 13) ∨ n = 160 ∨ n = 0x1680 ∨
      (0x2000 ≤ n ∧ n ≤ 0x200A) ∨ n = 0x2028 ∨ n = 0x2029 ∨ n = 0x202F ∨
      n = 0x205F ∨ n = 0x3000 ∨ n = 0xFEFF
  then true else false

/-- Characters that delimit word-like segments in `capitalizeEachWord`:
the regex alternation is start-of-string, `\s` whitespace, `/`, `-`,
the apostrophe (39) and the double quote (34). -/
def jsBoundary (c : Char) : Bool :=
  jsWhitespace c || c == '/' || c == '-' || c == Char.ofNat 39 ||
    c == Char.ofNat 34

/-- String-level `toLowerCase` over a character list. -/
def lowerList (l : List Char) : List Char :=
  l.flatMap jsLowerChar

/-- The global left-to-right regex replacement of `capitalizeEachWord`
on the already-lowercased text: every match consists of a boundary
character (or the string start) followed by one letter, and uppercasing
the match uppercases only the letter (boundary characters are
case-invariant); matches cannot overlap because each match ends on a
letter while boundary characters are not letters.  The replacement
therefore emits, for each character of the lowered text, its uppercase
form when it is a letter at the start or right after a boundary, and
the character itself otherwise; the flag records whether the previous
character was a boundary. -/
def capAuxU : Bool → List Char → List Char
  | _, [] => []
  | atSegStart, c :: cs =>
    (if atSegStart && jsIsLetter c then jsUpperChar c else [c]) ++
      capAuxU (jsBoundary c) cs

/-- Shallow embedding of `capitalizeEachWord` from `HorseForm`
(`if (!str) return ''; return str.toLowerCase().replace(/(?:^|\s|\/|-|'|")(\p{L})/gu, m => m.toUpperCase())`):
lowercase the whole string, then uppercase each segment-initial letter.
Case mapping, the letter class and the whitespace class follow the
Unicode tables over Basic Latin and the Latin-1 Supplement, including
the multi-character expansion `ß` to `SS`; characters beyond that
repertoire pass through unchanged. -/
def capitalizeEachWord (s : String) : String :=
  if s == "" then ""
  else String.mk (capAuxU true (lowerList s.data))

/-- Accumulator pass turning a list of decimal digits into a number. -/
def digitsToNat : List Char → Nat → Nat
  | [], acc => acc
  | c :: cs, acc => digitsToNat cs (acc * 10 + (c.toNat - 48))

/-- Leading-digits integer parse modelling `parseInt` applied to the
value of the numeric age input (`none` models `NaN`; the form's number
input only ever supplies a nonnegative decimal string). -/
def jsParseInt (s : String) : Option Nat :=
  let ds := s.data.takeWhile Char.isDigit
  if ds.isEmpty then none else some (digitsToNat ds 0)

/-- The controlled inputs of `HorseForm`: all text fields hold raw
strings; `selectedFile` holds the chosen photo file's name if any. -/
structure FormState where
  name : String
  breed : String
  age : String
  sex : String
  selectedFile : Option String
  previewPhoto : Option String
  fatherId : String
  motherId : String
  birthDate : String
deriving Repr, DecidableEq

/-- The object `HorseForm.handleSubmit` passes to `onAddHorse`. -/
structure NewHorseData where
  name : String
  breed : String
  age : Option Nat
  sex : String
  fatherId : Option String
  motherId : Option String
  birthDate : Option String
  photoFile : Option String
deriving Repr, DecidableEq

/-- The form state after `handleSubmit` runs its unconditional
`setName(''); setBreed(''); ...` block: every field reset. -/
def initialFormState : FormState :=
  { name := "", breed := "", age := "", sex := "", selectedFile := none,
    previewPhoto := none, fatherId := "", motherId := "", birthDate := "" }

/-- Shallow embedding of `HorseForm.handleSubmit`: when any required
field is empty it alerts and leaves the state alone (first component
`none`: nothing dispatched); otherwise it dispatches the normalized
payload to `onAddHorse` — empty parent selections become `null` — and
immediately clears every form field, without waiting for the dispatch
to succeed or fail. -/
def handleSubmit (fs : FormState) : Option NewHorseData × FormState :=
  if fs.name == "" || fs.breed == "" || fs.age == "" || fs.sex == "" then
    (none, fs)
  else
    (some
      { name := capitalizeEachWord fs.name,
        breed := capitalizeEachWord fs.breed,
        age := jsParseInt fs.age,
        sex := capitalizeEachWord fs.sex,
        fatherId := if fs.fatherId == "" then none else some fs.fatherId,
        motherId := if fs.motherId == "" then none else some fs.motherId,
        birthDate := if fs.birthDate == "" then none else some fs.birthDate,
        photoFile := fs.selectedFile },
     initialFormState)

/-- Outcome of the storage upload plus the subsequent
`getPublicUrl` read-back: `failure` models a rejected upload
(`uploadError` non-null); `success url` models a completed upload whose
public-URL lookup returned `url` (`none` or the empty string model a
missing `publicUrlData.publicUrl`). -/
inductive UploadOutcome where
  | failure (msg : String)
  | success (publicUrl : Option String)
deriving Repr, DecidableEq

/-- Outcome of the database insert: `failure` models a non-null
`insertError`; `success row` models the created record as returned by
the store (`data[0]`). -/
inductive InsertOutcome where
  | failure (msg : String)
  | success (row : Horse)
deriving Repr, DecidableEq

/-- The row object passed to `insert` in `addHorse`. -/
structure InsertPayload where
  nome : String
  raca : String
  idade : Option Nat
  sexo : String
  pai_id : Option String
  mae_id : Option String
  url_imagem : Option String
deriving Repr, DecidableEq

/-- The component state `addHorse` reads and writes: the in-memory
horse collection, the navigation mode and the error message. -/
structure AppState where
  horses : List Horse
  viewMode : String
  errorMsg : Option String
deriving Repr, DecidableEq

/-- Observable result of one `addHorse` run: the resulting component
state plus whether the insert was attempted and, if so, with which row
payload, and which created row (if any) the store returned. -/
structure AddResult where
  horses : List Horse
  viewMode : String
  errorMsg : Option String
  insertAttempted : Bool
  sentPayload : Option InsertPayload
  insertedRow : Option Horse
deriving Repr, DecidableEq

/-- The catch-block of `addHorse`: sets the inline error message
(`Falha ao adicionar cavalo: ...`), leaves the collection and the view
mode untouched. -/
def addFailure (st : AppState) (msg : String) (attempted : Bool)
    (payload : Option InsertPayload) : AddResult :=
  { horses := st.horses, viewMode := st.viewMode,
    errorMsg := some ("Falha ao adicionar cavalo: " ++ msg),
    insertAttempted := attempted, sentPayload := payload,
    insertedRow := none }

/-- The row `addHorse` sends to the `cavalos` table: field names mapped
to database columns, parent ids passed through as received (id or
null), and the resolved photo URL (or null). -/
def insertPayloadOf (nd : NewHorseData) (photoUrl : Option String) : InsertPayload :=
  { nome := nd.name, raca := nd.breed, idade := nd.age, sexo := nd.sex,
    pai_id := nd.fatherId, mae_id := nd.motherId, url_imagem := photoUrl }

/-- Step 2 of `addHorse`: attempt the database insert; on failure run
the catch block, on success append the returned row to the collection
and go back to the list view with the error cleared. -/
def insertStep (st : AppState) (nd : NewHorseData) (photoUrl : Option String)
    (ins : InsertOutcome) : AddResult :=
  match ins with
  | .failure msg => addFailure st msg true (some (insertPayloadOf nd photoUrl))
  | .success row =>
    { horses := st.horses ++ [row], viewMode := "list", errorMsg := none,
      insertAttempted := true, sentPayload := some (insertPayloadOf nd photoUrl),
      insertedRow := some row }

/-- Shallow embedding of `addHorse` from `App.jsx`: if a photo file is
attached, the upload runs first; a rejected upload or a falsy public
URL throws before the insert is reached (the thrown message for a
missing URL is the source's literal).  Only after a successful upload
(or with no photo at all) is the insert attempted. -/
def addHorse (st : AppState) (nd : NewHorseData) (upload : UploadOutcome)
    (ins : InsertOutcome) : AddResult :=
  match nd.photoFile with
  | some _ =>
    match upload with
    | .failure msg => addFailure st msg false none
    | .success url =>
      if jsTruthyStr url then insertStep st nd url ins
      else addFailure st "Não foi possível obter o URL público da imagem após o upload."
        false none
  | none => insertStep st nd none ins

theorem handleSubmit_some_eq (fs : FormState) (nd : NewHorseData) (fs2 : FormState)
    (hsub : handleSubmit fs = (some nd, fs2)) :
    nd = { name := capitalizeEachWord fs.name,
           breed := capitalizeEachWord fs.breed,
           age := jsParseInt fs.age,
           sex := capitalizeEachWord fs.sex,
           fatherId := if fs.fatherId == "" then none else some fs.fatherId,
           motherId := if fs.motherId == "" then none else some fs.motherId,
           birthDate := if fs.birthDate == "" then none else some fs.birthDate,
           photoFile := fs.selectedFile } ∧
    fs2 = initialFormState := by
  unfold handleSubmit at hsub
  split at hsub
  · simp at hsub
  · rw [Prod.mk.injEq, Option.some.injEq] at hsub
    exact ⟨hsub.1.symm, hsub.2.symm⟩

theorem addHorse_sentPayload (st : AppState) (nd : NewHorseData)
    (upload : UploadOutcome) (ins : InsertOutcome) (p : InsertPayload)
    (hp : (addHorse st nd upload ins).sentPayload = some p) :
    p.pai_id = nd.fatherId ∧ p.mae_id = nd.motherId := by
  obtain ⟨nm, br, ag, sx, fa, mo, bd, ph⟩ := nd
  unfold addHorse insertStep addFailure insertPayloadOf at hp
  cases ph with
  | none =>
    cases ins with
    | failure msg =>
      injection hp with h2
      subst h2
      exact ⟨rfl, rfl⟩
    | success row =>
      injection hp with h2
      subst h2
      exact ⟨rfl, rfl⟩
  | some f =>
    cases upload with
    | failure msg => exact absurd hp (by simp)
    | success url =>
      simp only [] at hp
      by_cases hurl : jsTruthyStr url = true
      · rw [if_pos hurl] at hp
        cases ins with
        | failure msg =>
          injection hp with h2
          subst h2
          exact ⟨rfl, rfl⟩
        | success row =>
          injection hp with h2
          subst h2
          exact ⟨rfl, rfl⟩
      · rw [if_neg hurl] at hp
        exact absurd hp (by simp)

/-- C5: with a photo attached, a failed upload — or a successful upload
whose public URL cannot be read back (null or empty) — aborts
`addHorse` before the insert: nothing is sent to the store, no row is
created, and the in-memory collection is unchanged. -/
theorem claim5_upload_atomicity (st : AppState) (nd : NewHorseData)
    (upload : UploadOutcome) (ins : InsertOutcome) (f : String)
    (hphoto : nd.photoFile = some f)
    (hfail : (∃ msg, upload = .failure msg) ∨
      (∃ url, upload = .success url ∧ jsTruthyStr url = false)) :
    (addHorse st nd upload ins).insertAttempted = false ∧
    (addHorse st nd upload ins).sentPayload = none ∧
    (addHorse st nd upload ins).insertedRow = none ∧
    (addHorse st nd upload ins).horses = st.horses := by
  unfold addHorse
  rw [hphoto]
  rcases hfail with ⟨msg, rfl⟩ | ⟨url, rfl, hurl⟩
  · simp [addFailure]
  · simp [hurl, addFailure]

/-- Sample component state sitting in the add view. -/
def stAdd : AppState := { horses := [horseA, horseB], viewMode := "add", errorMsg := none }

/-- Sample filled-in form (both parent selections left at "none
registered"). -/
def sampleForm : FormState :=
  { name := "Relampago", breed := "Puro Sangue", age := "4", sex := "Macho",
    selectedFile := some "foto.png", previewPhoto := some "preview",
    fatherId := "", motherId := "", birthDate := "" }

/-- The payload `handleSubmit` dispatches for `sampleForm`. -/
def ndSample : NewHorseData :=
  { name := "Relampago", breed := "Puro Sangue", age := some 4, sex := "Macho",
    fatherId := none, motherId := none, birthDate := none,
    photoFile := some "foto.png" }

/-- Witness for C5: concrete dispatch with a photo whose upload is
rejected; the insert is never attempted and the collection is kept. -/
theorem claim5_upload_atomicity_witness :
    ndSample.photoFile = some "foto.png" ∧
    ((addHorse stAdd ndSample (.failure "falha de rede") (.success horseC)).insertAttempted = false ∧
     (addHorse stAdd ndSample (.failure "falha de rede") (.success horseC)).sentPayload = none ∧
     (addHorse stAdd ndSample (.failure "falha de rede") (.success horseC)).insertedRow = none ∧
     (addHorse stAdd ndSample (.failure "falha de rede") (.success horseC)).horses = stAdd.horses) :=
  ⟨rfl, claim5_upload_atomicity stAdd ndSample (.failure "falha de rede")
    (.success horseC) "foto.png" rfl (Or.inl ⟨"falha de rede", rfl⟩)⟩

/-- C6 counterexample: the claim says a failed add leaves the form state
retained for re-submission, but `handleSubmit` clears every field
immediately after dispatching, before the outcome is known.  Concrete
run: submitting `sampleForm` dispatches the payload and resets the form
to `initialFormState`, which differs from the filled-in form, even
though the failing `addHorse` does keep the view mode `add` and reports
the error. -/
theorem claim6_counterexample :
    handleSubmit sampleForm = (some ndSample, initialFormState) ∧
    (addHorse stAdd ndSample (.failure "falha de rede") (.success horseC)).errorMsg =
      some "Falha ao adicionar cavalo: falha de rede" ∧
    (addHorse stAdd ndSample (.failure "falha de rede") (.success horseC)).viewMode = "add" ∧
    initialFormState ≠ sampleForm := by
  refine ⟨rfl, rfl, rfl, ?_⟩
  intro hcontra
  have : initialFormState.name = sampleForm.name := congrArg FormState.name hcontra
  simp [initialFormState, sampleForm] at this

theorem addHorse_failure_state (st : AppState) (nd : NewHorseData)
    (upload : UploadOutcome) (ins : InsertOutcome)
    (hfail : (addHorse st nd upload ins).insertedRow = none) :
    (∃ m, (addHorse st nd upload ins).errorMsg = some m) ∧
    (addHorse st nd upload ins).viewMode = st.viewMode ∧
    (addHorse st nd upload ins).horses = st.horses := by
  obtain ⟨nm, br, ag, sx, fa, mo, bd, ph⟩ := nd
  unfold addHorse insertStep addFailure at hfail ⊢
  cases ph with
  | none =>
    cases ins with
    | failure msg => exact ⟨⟨_, rfl⟩, rfl, rfl⟩
    | success row => simp at hfail
  | some f =>
    cases upload with
    | failure msg => exact ⟨⟨_, rfl⟩, rfl, rfl⟩
    | success url =>
      simp only [] at hfail ⊢
      by_cases hurl : jsTruthyStr url = true
      · rw [if_pos hurl] at hfail ⊢
        cases ins with
        | failure msg => exact ⟨⟨_, rfl⟩, rfl, rfl⟩
        | success row => simp at hfail
      · rw [if_neg hurl] at hfail ⊢
        exact ⟨⟨_, rfl⟩, rfl, rfl⟩

/-- C6 (amended): on any failure of `addHorse` at either step the
failure is reported through the inline error message, the view mode and
the collection are unchanged (so the system stays in the `add` state it
was in), but the form fields have already been cleared by
`handleSubmit` — the entered values are reset, not retained. -/
theorem claim6_failure_stays_add (st : AppState) (nd : NewHorseData)
    (upload : UploadOutcome) (ins : InsertOutcome)
    (hfail : (addHorse st nd upload ins).insertedRow = none) :
    (∃ m, (addHorse st nd upload ins).errorMsg = some m) ∧
    (addHorse st nd upload ins).viewMode = st.viewMode ∧
    (addHorse st nd upload ins).horses = st.horses ∧
    (∀ fs nd2 fs2, handleSubmit fs = (some nd2, fs2) → fs2 = initialFormState) := by
  obtain ⟨h1, h2, h3⟩ := addHorse_failure_state st nd upload ins hfail
  exact ⟨h1, h2, h3, fun fs nd2 fs2 hsub => (handleSubmit_some_eq fs nd2 fs2 hsub).2⟩

/-- Witness for C6 (amended) at a concrete failing run. -/
theorem claim6_failure_stays_add_witness :
    (addHorse stAdd ndSample (.failure "falha de rede") (.success horseC)).insertedRow = none ∧
    ((∃ m, (addHorse stAdd ndSample (.failure "falha de rede") (.success horseC)).errorMsg = some m) ∧
     (addHorse stAdd ndSample (.failure "falha de rede") (.success horseC)).viewMode = stAdd.viewMode ∧
     (addHorse stAdd ndSample (.failure "falha de rede") (.success horseC)).horses = stAdd.horses ∧
     (∀ fs nd2 fs2, handleSubmit fs = (some nd2, fs2) → fs2 = initialFormState)) :=
  ⟨rfl, claim6_failure_stays_add stAdd ndSample (.failure "falha de rede") (.success horseC) rfl⟩

/-- C9: submitting with the "none registered" parent selections (empty
`fatherId` and `motherId`) dispatches a payload with both parent
references `null`, and any insert that `addHorse` then sends to the
store carries `pai_id = null` and `mae_id = null` — never the empty
string. -/
theorem claim9_empty_parents_absent (fs : FormState) (nd : NewHorseData)
    (fs2 : FormState) (hsub : handleSubmit fs = (some nd, fs2))
    (hfa : fs.fatherId = "") (hmo : fs.motherId = "") :
    nd.fatherId = none ∧ nd.motherId = none ∧
    ∀ (st : AppState) (upload : UploadOutcome) (ins : InsertOutcome)
      (p : InsertPayload),
      (addHorse st nd upload ins).sentPayload = some p →
      p.pai_id = none ∧ p.mae_id = none := by
  obtain ⟨hnd, -⟩ := handleSubmit_some_eq fs nd fs2 hsub
  have hfa2 : nd.fatherId = none := by
    rw [hnd]
    simp [hfa]
  have hmo2 : nd.motherId = none := by
    rw [hnd]
    simp [hmo]
  refine ⟨hfa2, hmo2, fun st upload ins p hp => ?_⟩
  obtain ⟨h1, h2⟩ := addHorse_sentPayload st nd upload ins p hp
  rw [h1, h2, hfa2, hmo2]
  exact ⟨rfl, rfl⟩

/-- Witness for C9 through the concrete sample form and a successful
upload-and-insert run. -/
theorem claim9_empty_parents_absent_witness :
    handleSubmit sampleForm = (some ndSample, initialFormState) ∧
    sampleForm.fatherId = "" ∧ sampleForm.motherId = "" ∧
    ndSample.fatherId = none ∧ ndSample.motherId = none ∧
    (addHorse stAdd ndSample (.success (some "https://x/foto.png"))
        (.success horseC)).sentPayload =
      some (insertPayloadOf ndSample (some "https://x/foto.png")) ∧
    (insertPayloadOf ndSample (some "https://x/foto.png")).pai_id = none ∧
    (insertPayloadOf ndSample (some "https://x/foto.png")).mae_id = none := by
  have H := claim9_empty_parents_absent sampleForm ndSample initialFormState
    rfl rfl rfl
  exact ⟨rfl, rfl, rfl, H.1, H.2.1, rfl,
    H.2.2 stAdd (.success (some "https://x/foto.png")) (.success horseC)
      (insertPayloadOf ndSample (some "https://x/foto.png")) rfl⟩

/-- UTF-8 encoding of one character as its byte values (pure
arithmetic on the code point). -/
def utf8Bytes (c : Char) : List Nat :=
  let n := c.toNat
  if n < 0x80 then [n]
  else if n < 0x800 then [0xC0 + n / 0x40, 0x80 + n % 0x40]
  else if n < 0x10000 then
    [0xE0 + n / 0x1000, 0x80 + n / 0x40 % 0x40, 0x80 + n % 0x40]
  else
    [0xF0 + n / 0x40000, 0x80 + n / 0x1000 % 0x40, 0x80 + n / 0x40 % 0x40,
      0x80 + n % 0x40]

/-- Characters `encodeURIComponent` leaves unescaped:
letters, digits, and `- _ . ! ~ * ' ( )` (apostrophe is code 39,
tilde 126). -/
def uriUnreserved (c : Char) : Bool :=
  c.isAlphanum || c == '-' || c == '_' || c == '.' || c == '!' ||
    c == Char.ofNat 126 || c == '*' || c == Char.ofNat 39 ||
    c == '(' || c == ')'

/-- Uppercase hexadecimal digit for a value below 16. -/
def hexDigitChar (n : Nat) : Char :=
  if n < 10 then Char.ofNat (48 + n) else Char.ofNat (55 + n)

/-- Percent-escape of one byte: `%` (code 37) followed by two uppercase
hex digits. -/
def percentEncodeByte (b : Nat) : List Char :=
  [Char.ofNat 37, hexDigitChar (b / 16), hexDigitChar (b % 16)]

/-- Model of the browser's `encodeURIComponent`: unreserved characters
pass through, every other character is replaced by the percent-escapes
of its UTF-8 bytes. -/
def encodeURIComponent (s : String) : String :=
  String.mk ((s.data.map (fun c =>
    if uriUnreserved c then [c]
    else ((utf8Bytes c).map percentEncodeByte).flatten)).flatten)

/-- Value of a hexadecimal digit character, if it is one. -/
def hexVal (c : Char) : Option Nat :=
  if c.isDigit then some (c.toNat - 48)
  else if 65 ≤ c.toNat ∧ c.toNat ≤ 70 then some (c.toNat - 55)
  else if 97 ≤ c.toNat ∧ c.toNat ≤ 102 then some (c.toNat - 87)
  else none

/-- Percent-decoding of a character sequence into bytes: `%HH` becomes
one byte, any other character contributes its UTF-8 bytes; a malformed
escape yields `none`. -/
def percentDecodeBytes : List Char → Option (List Nat)
  | [] => some []
  | c :: rest =>
    if c == Char.ofNat 37 then
      match rest with
      | h1 :: h2 :: rest2 =>
        match hexVal h1, hexVal h2 with
        | some a, some b =>
          (percentDecodeBytes rest2).map (fun bs => (16 * a + b) :: bs)
        | _, _ => none
      | _ => none
    else (percentDecodeBytes rest).map (fun bs => utf8Bytes c ++ bs)

/-- Whether a byte is a UTF-8 continuation byte (`10xxxxxx`). -/
def isContByte (b : Nat) : Bool :=
  decide (0x80 ≤ b) && decide (b < 0xC0)

/-- UTF-8 decoding of a byte sequence back to characters; `none` on a
truncated or ill-formed sequence.  Overlong forms and surrogate code
points are not rejected (the claims only exercise well-formed ASCII). -/
def utf8DecodeChars : List Nat → Option (List Char)
  | [] => some []
  | b :: bs =>
    if b < 0x80 then
      (utf8DecodeChars bs).map (fun cs => Char.ofNat b :: cs)
    else if b < 0xC0 then none
    else if b < 0xE0 then
      match bs with
      | b2 :: rest =>
        if isContByte b2 then
          (utf8DecodeChars rest).map (fun cs =>
            Char.ofNat ((b - 0xC0) * 0x40 + (b2 - 0x80)) :: cs)
        else none
      | _ => none
    else if b < 0xF0 then
      match bs with
      | b2 :: b3 :: rest =>
        if isContByte b2 && isContByte b3 then
          (utf8DecodeChars rest).map (fun cs =>
            Char.ofNat ((b - 0xE0) * 0x1000 + (b2 - 0x80) * 0x40 +
              (b3 - 0x80)) :: cs)
        else none
      | _ => none
    else if b < 0xF8 then
      match bs with
      | b2 :: b3 :: b4 :: rest =>
        if isContByte b2 && isContByte b3 && isContByte b4 then
          (utf8DecodeChars rest).map (fun cs =>
            Char.ofNat ((b - 0xF0) * 0x40000 + (b2 - 0x80) * 0x1000 +
              (b3 - 0x80) * 0x40 + (b4 - 0x80)) :: cs)
        else none
      | _ => none
    else none

/-- Model of the browser's `decodeURIComponent`: percent-decode to
bytes, then UTF-8-decode; `none` models the thrown `URIError`. -/
def decodeURIComponent (s : String) : Option String :=
  (percentDecodeBytes s.data).bind (fun bs =>
    (utf8DecodeChars bs).map String.mk)

/-- Split a character list on a separator character; a list with no
separator yields one group. -/
def splitOnChar (sep : Char) : List Char → List (List Char)
  | [] => [[]]
  | c :: cs =>
    let r := splitOnChar sep cs
    if c == sep then [] :: r
    else
      match r with
      | [] => [[c]]
      | g :: gs => (c :: g) :: gs

/-- Split one `key=value` pair at the first `=` (a pair with no `=` has
an empty value), as `URLSearchParams` does. -/
def splitKV : List Char → List Char × List Char
  | [] => ([], [])
  | c :: cs =>
    if c == '=' then ([], cs)
    else
      let r := splitKV cs
      (c :: r.1, r.2)

/-- `URLSearchParams` component decoding: `+` becomes a space, then
percent-decoding; an ill-formed escape falls back to the raw text
(the real API substitutes replacement characters rather than throwing;
the claims only exercise well-formed input). -/
def uspDecode (l : List Char) : String :=
  match decodeURIComponent
      (String.mk (l.map (fun c => if c == '+' then ' ' else c))) with
  | some v => v
  | none => String.mk l

/-- Parse of `window.location.search` as `URLSearchParams` does: strip
one leading `?`, split on `&` (code 38), skip empty segments, split
each segment at its first `=`, and decode both sides. -/
def parseQueryPairs (search : String) : List (String × String) :=
  let s : List Char :=
    match search.data with
    | c :: rest => if c == '?' then rest else search.data
    | [] => []
  (splitOnChar (Char.ofNat 38) s).filterMap (fun pair =>
    match pair with
    | [] => none
    | _ =>
      let kv := splitKV pair
      some (uspDecode kv.1, uspDecode kv.2))

/-- `URLSearchParams.get`: the value of the first pair with the given
key, or `null`. -/
def getParam (pairs : List (String × String)) (key : String) : Option String :=
  match pairs.find? (fun kv => kv.1 == key) with
  | some kv => some kv.2
  | none => none

/-- The view-state fields the startup effect initializes. -/
structure StartupState where
  viewMode : String
  selectedHorseId : Option String
  isSharedView : Bool
deriving Repr, DecidableEq

/-- Shallow embedding of the startup `useEffect` in `App`: read the
`id` and `shared` query parameters; a truthy `id` starts the app in
`details` for the (additionally `decodeURIComponent`-decoded) id, with
the shared flag set iff `shared` is literally `"true"`; otherwise the
app starts in `list`.  `none` models the `URIError` a malformed `id`
would throw. -/
def initialViewState (search : String) : Option StartupState :=
  let params := parseQueryPairs search
  let horseIdParam := getParam params "id"
  let sharedParam := getParam params "shared"
  if jsTruthyStr horseIdParam then
    match horseIdParam with
    | some idv =>
      match decodeURIComponent idv with
      | some decoded =>
        some { viewMode := "details", selectedHorseId := some decoded,
               isSharedView := sharedParam == some "true" }
      | none => none
    | none => none
  else
    some { viewMode := "list", selectedHorseId := none, isSharedView := false }

/-- Shallow embedding of `HorseDetail.handleShareClick`'s URL
construction:
`${window.location.origin}/?id=${encodeURIComponent(horse.id)}&shared=true`. -/
def shareUrl (origin : String) (id : String) : String :=
  origin ++ "/?id=" ++ encodeURIComponent id ++ "&shared=true"

/-- C7: sharing the horse with id "42" produces exactly
`<origin>/?id=42&shared=true`, and loading a page whose query string is
`?id=42&shared=true` starts the app in `details` for id "42" with the
shared flag set — the id embedded by the share action is recovered by
the startup query parsing. -/
theorem claim7_share_roundtrip (origin : String) :
    shareUrl origin "42" = origin ++ "/?id=42&shared=true" ∧
    initialViewState "?id=42&shared=true" =
      some { viewMode := "details", selectedHorseId := some "42",
             isSharedView := true } := by
  constructor
  · show origin ++ "/?id=" ++ encodeURIComponent "42" ++ "&shared=true" = _
    have he : encodeURIComponent "42" = "42" := rfl
    rw [he]
    apply String.ext
    simp [String.data_append]
  · rfl
